import Mathlib

/-!
Verification development for the TruthDB installer.

The installer's platform layer (disk scanning, partitioning, target
configuration, boot installation) and its pipeline driver are embedded
shallowly: Rust strings become `List Char`, filesystem reads become
`Option`-valued environment fields (`none` models an unreadable file),
external tool invocations become environment fields carrying the tool's
outcome, and each Rust function becomes a Lean function over those
environments.  Machine integers (`u64`) are modelled as `Nat` with explicit
`2 ^ 64` bounds where the source can overflow or saturate.
-/

namespace Installer

/-- Character strings of the Rust source, modelled as lists of Unicode
scalar values (Rust `char`). -/
abbrev Str := List Char

/-- Whitespace predicate used by `str::trim`, restricted to the ASCII
whitespace characters that occur in the installer's inputs. -/
def isWsC (c : Char) : Bool :=
  c = ' ' || c = '\t' || c = '\n' || c = '\r'

/-- Model of Rust `str::trim`: drop whitespace from both ends. -/
def trimL (cs : Str) : Str :=
  ((cs.dropWhile isWsC).reverse.dropWhile isWsC).reverse

/-- Strip one trailing carriage return, as `str::lines` does per line. -/
def stripCrL (cs : Str) : Str :=
  if cs.getLast? = some '\r' then cs.dropLast else cs

/-- Split a character list at every newline; the piece after the last
newline is always present (possibly empty), mirroring `str::split('\n')`. -/
def splitNlL : Str → List Str
  | [] => [[]]
  | c :: rest =>
    if c = '\n' then [] :: splitNlL rest
    else
      match splitNlL rest with
      | [] => [[c]]
      | l :: ls => (c :: l) :: ls

/-- Drop a single trailing empty piece, as `str::lines` omits the final
empty line when the string ends with a newline. -/
def chompBlank (xs : List Str) : List Str :=
  if xs.getLast? = some [] then xs.dropLast else xs

/-- Model of Rust `str::lines`: split at newlines, drop the final empty
piece, and strip one trailing carriage return from each line. -/
def rustLinesL (cs : Str) : List Str :=
  (chompBlank (splitNlL cs)).map stripCrL

/-- Join pieces with a separator, as `Vec::join`. -/
def joinSep (sep : Str) : List Str → Str
  | [] => []
  | [x] => x
  | x :: y :: xs => x ++ sep ++ joinSep sep (y :: xs)

/-- Join lines with newlines, as the hosts rewriter's `out.join("\n")`. -/
def joinNlL (xs : List Str) : Str := joinSep ['\n'] xs

/-- Append a final newline unless one is already present, as the hosts
rewriter does before the IPv6 check. -/
def ensureNlL (cs : Str) : Str :=
  if cs.getLast? = some '\n' then cs else cs ++ ['\n']

/-- Model of `str::split_once`: split at the first occurrence of `sep`. -/
def splitOnceL (sep : Str) : Str → Option (Str × Str)
  | [] => if sep.isPrefixOf ([] : Str) then some ([], []) else none
  | c :: rest =>
    if sep.isPrefixOf (c :: rest) then some ([], (c :: rest).drop sep.length)
    else (splitOnceL sep rest).map (fun p => (c :: p.1, p.2))

/-- Model of `str::split_whitespace`: maximal runs of non-whitespace. -/
def splitWsL (cs : Str) : List Str :=
  let fin := cs.foldl
    (fun acc c =>
      if isWsC c then
        match acc.2 with
        | [] => (acc.1, ([] : Str))
        | w => (acc.1 ++ [w.reverse], ([] : Str))
      else (acc.1, c :: acc.2))
    (([] : List Str), ([] : Str))
  match fin.2 with
  | [] => fin.1
  | w => fin.1 ++ [w.reverse]

/-- Numeric value of a decimal digit character, if it is one. -/
def charDigit? (c : Char) : Option Nat :=
  if 48 ≤ c.toNat ∧ c.toNat ≤ 57 then some (c.toNat - 48) else none

/-- Parse an unsigned decimal numeral; `none` on the empty string or any
non-digit character. -/
def strToNat? (cs : Str) : Option Nat :=
  if cs.isEmpty then none
  else cs.foldlM (fun acc c => (charDigit? c).map (fun d => 10 * acc + d)) 0

/-- Model of `str::parse::<u64>` after `trim`, as `read_u64` does: parse
the trimmed decimal content, failing on overflow past `u64::MAX`. -/
def parseU64? (cs : Str) : Option Nat :=
  (strToNat? (trimL cs)).bind (fun v => if v < 2 ^ 64 then some v else none)

/-- Byte-wise lexicographic strict order on names, modelling `str` `Ord`
as used by `sort_by(|a, b| a.name.cmp(&b.name))`. -/
def strLt : Str → Str → Bool
  | [], [] => false
  | [], _ :: _ => true
  | _ :: _, [] => false
  | a :: as, b :: bs => if a < b then true else if b < a then false else strLt as bs

/-- Decidable equality for `Except`, used to evaluate step outcomes on
concrete inputs. -/
instance {ε α : Type} [DecidableEq ε] [DecidableEq α] : DecidableEq (Except ε α)
  | .error a, .error b =>
    if h : a = b then .isTrue (by rw [h])
    else .isFalse (by intro hc; cases hc; exact h rfl)
  | .error _, .ok _ => .isFalse (by intro hc; cases hc)
  | .ok _, .error _ => .isFalse (by intro hc; cases hc)
  | .ok a, .ok b =>
    if h : a = b then .isTrue (by rw [h])
    else .isFalse (by intro hc; cases hc; exact h rfl)

/-! Disk scanner (`src/platform/disks.rs`). -/

/-- Disk record produced by the scanner (`struct Disk`). -/
structure Disk where
  name : Str
  devPath : Str
  sizeBytes : Nat
  model : Option Str
deriving DecidableEq

/-- Synthetic block-device entry under `/sys/block/<name>`: each attribute
file's readable content, or `none` when the read fails. -/
structure DevEntry where
  name : Str
  hasDevice : Bool
  removable : Option Str
  ro : Option Str
  size : Option Str
  model : Option Str
deriving DecidableEq

/-- Scanner environment: the block directory listing (`none` = unreadable
directory), the mount-info table (`none` = unreadable), and the minimum
size threshold of the `DiskScanner`. -/
structure ScanEnv where
  block : Option (List DevEntry)
  mountinfo : Option Str
  minSizeBytes : Nat

/-- Error taxonomy of the scanner, naming the distinct `anyhow!` failures
of `eligible_disks` and `choose_single_target_disk`. -/
inductive ScanError where
  | ioError (msg : Str)
  | noEligibleDisk
  | ambiguousTarget (names : Str)
deriving DecidableEq

/-- Model of `is_candidate_name`: exclude virtual-device prefixes, accept
`sd*`, `vd*`, `nvme*`. -/
def is_candidate_name (name : Str) : Bool :=
  if ("loop").data.isPrefixOf name || ("ram").data.isPrefixOf name
      || ("sr").data.isPrefixOf name || ("fd").data.isPrefixOf name
      || ("dm-").data.isPrefixOf name || ("md").data.isPrefixOf name then
    false
  else
    ("sd").data.isPrefixOf name || ("vd").data.isPrefixOf name
      || ("nvme").data.isPrefixOf name

/-- Model of `is_device_mounted` given readable mount-info contents: a
line mounts the device when, after the ` - ` marker, its source field
equals `/dev/<name>` or has it as a prefix. -/
def is_device_mounted (mountinfo : Str) (devName : Str) : Bool :=
  let needle := ("/dev/").data ++ devName
  (rustLinesL mountinfo).any (fun line =>
    match splitOnceL (" - ").data line with
    | none => false
    | some p =>
      match splitWsL p.2 with
      | _fstype :: source :: _ => source = needle || needle.isPrefixOf source
      | _ => false)

/-- Result of inspecting one block-device entry inside the
`eligible_disks` loop: skip (`ok none`), keep (`ok (some d)`), or abort
the whole scan (`error`).  `removable`/`ro` read or parse failures
default to `1` and skip the device; a `size` read or parse failure is
propagated with `?` and aborts; an unreadable mount table aborts. -/
def processEntry (minSize : Nat) (mountinfo : Option Str) (e : DevEntry) :
    Except ScanError (Option Disk) :=
  if ¬ is_candidate_name e.name then .ok none
  else if ¬ e.hasDevice then .ok none
  else if (e.removable.bind parseU64?).getD 1 ≠ 0 then .ok none
  else if (e.ro.bind parseU64?).getD 1 ≠ 0 then .ok none
  else
    match e.size.bind parseU64? with
    | none => .error (.ioError (("Failed to read size for ").data ++ e.name))
    | some sectors =>
      let sizeBytes := min (sectors * 512) (2 ^ 64 - 1)
      if sizeBytes < minSize then .ok none
      else
        match mountinfo with
        | none => .error (.ioError ("Failed to read mountinfo").data)
        | some mi =>
          if is_device_mounted mi e.name then .ok none
          else .ok (some { name := e.name,
                           devPath := ("/dev/").data ++ e.name,
                           sizeBytes := sizeBytes,
                           model := e.model.map trimL })

/-- Loop of `eligible_disks` over the entries, preserving directory order
and propagating the first fatal error. -/
def scanEntries (minSize : Nat) (mountinfo : Option Str) :
    List DevEntry → Except ScanError (List Disk)
  | [] => .ok []
  | e :: es =>
    match processEntry minSize mountinfo e with
    | .error er => .error er
    | .ok none => scanEntries minSize mountinfo es
    | .ok (some d) => (scanEntries minSize mountinfo es).map (fun ds => d :: ds)

/-- Insertion step of the final `sort_by` on names. -/
def insertByName (d : Disk) : List Disk → List Disk
  | [] => [d]
  | x :: xs => if strLt x.name d.name then x :: insertByName d xs else d :: x :: xs

/-- Stable sort by name, modelling `disks.sort_by(|a, b| a.name.cmp(&b.name))`. -/
def sortByName (ds : List Disk) : List Disk :=
  ds.foldr insertByName []

/-- Model of `eligible_disks`: fatal on an unreadable block directory,
otherwise the surviving entries sorted by name. -/
def eligible_disks (env : ScanEnv) : Except ScanError (List Disk) :=
  match env.block with
  | none => .error (.ioError ("Failed to read block dir").data)
  | some entries =>
    (scanEntries env.minSizeBytes env.mountinfo entries).map sortByName

/-- Comma-space join of the ambiguous candidates' device paths
(`.join(", ")`). -/
def joinCommaSp (xs : List Str) : Str := joinSep (", ").data xs

/-- Model of `choose_single_target_disk`: propagate scan errors, fail on
zero candidates, return a unique candidate, and refuse with the formatted
candidate list on two or more. -/
def choose_single_target_disk (env : ScanEnv) : Except ScanError Disk :=
  match eligible_disks env with
  | .error e => .error e
  | .ok [] => .error .noEligibleDisk
  | .ok [d] => .ok d
  | .ok (a :: b :: rest) =>
    .error (.ambiguousTarget (joinCommaSp ((a :: b :: rest).map Disk.devPath)))

/-! Partition planner (`src/platform/partition.rs`). -/

/-- Partition plan (`struct PartitionPlan`), ESP size in MiB. -/
structure PartitionPlan where
  espSizeMib : Nat
deriving DecidableEq

/-- Default plan: a 512 MiB ESP. -/
def PartitionPlan.default : PartitionPlan := { espSizeMib := 512 }

/-- Prefix `127.0.0.1` tested against each trimmed hosts line. -/
def ip4Local : Str := ("127.0.0.1").data

/-- Prefix `127.0.1.1` tested against each trimmed hosts line. -/
def ip4Host : Str := ("127.0.1.1").data

/-- The localhost line pushed when no `127.0.0.1` entry is present. -/
def localhostLine : Str := ("127.0.0.1\tlocalhost").data

/-- The replacement `127.0.1.1` line naming the new hostname. -/
def hostLine (h : Str) : Str := ip4Host ++ '\t' :: h

/-- Test whether a hosts line is a `127.0.1.1` entry, as the rewriter's
`trimmed.starts_with("127.0.1.1")`. -/
def is127011 (l : Str) : Bool := ip4Host.isPrefixOf (trimL l)

/-- Test whether a hosts line is a `127.0.0.1` entry, as the rewriter's
`trimmed.starts_with("127.0.0.1")`. -/
def is127001 (l : Str) : Bool := ip4Local.isPrefixOf (trimL l)

/-- The first of the three IPv6 default lines. -/
def ip6Line1 : Str := ("::1\tlocalhost ip6-localhost ip6-loopback").data

/-- The second of the three IPv6 default lines. -/
def ip6Line2 : Str := ("ff02::1\tip6-allnodes").data

/-- The third of the three IPv6 default lines. -/
def ip6Line3 : Str := ("ff02::2\tip6-allrouters").data

/-- The IPv6 default block appended when `::1` is absent, exactly the
three `push_str` payloads concatenated. -/
def ipv6Block : Str :=
  ip6Line1 ++ '\n' :: ip6Line2 ++ '\n' :: ip6Line3 ++ ['\n']

/-- The substring whose presence suppresses appending `ipv6Block`. -/
def ip6Marker : Str := ("::1").data

/-- Loop of the hosts rewriter over the existing lines, carrying the
`has_localhost` and `wrote_127_0_1_1` flags and finishing with the two
conditional pushes. -/
def procLines (h : Str) : List Str → Bool → Bool → List Str
  | [], hasL, wrote =>
    (if hasL then [] else [localhostLine])
      ++ (if wrote then [] else [hostLine h])
  | l :: ls, hasL, wrote =>
    let hasL' := hasL || is127001 l
    if is127011 l then
      (if wrote then [] else [hostLine h]) ++ procLines h ls hasL' true
    else
      l :: procLines h ls hasL' wrote

/-- The rewritten hosts line list for the given existing lines. -/
def hostsOut (h : Str) (ls : List Str) : List Str := procLines h ls false false

/-- Render the rewritten line list to file contents: join with newlines,
ensure a trailing newline, append the IPv6 defaults if `::1` is absent. -/
def renderHosts (out : List Str) : Str :=
  let s := ensureNlL (joinNlL out)
  if decide (ip6Marker <:+: s) then s else s ++ ipv6Block

/-- Contents `configure_hostname` writes to `/etc/hosts`, as a function
of the previous contents and the hostname. -/
def configure_hosts (existing h : Str) : Str :=
  renderHosts (hostsOut h (rustLinesL existing))

/-- Contents `configure_hostname` writes to `/etc/hostname`. -/
def configure_hostname_file (h : Str) : Str := h ++ ['\n']

/-! Target configurator: machine id (`ensure_machine_id`). -/

/-- Environment of `ensure_machine_id`: the current readable contents of
`etc/machine-id` (`none` = absent or unreadable) and the contents of
`/proc/sys/kernel/random/uuid` (`none` = unreadable). -/
structure MachineIdEnv where
  existing : Option Str
  kernelUuid : Option Str

/-- Outcome of `ensure_machine_id`: the final contents of
`etc/machine-id` and whether the D-Bus symlink mirror was (re)created. -/
structure MachineIdState where
  machineId : Str
  dbusMirrored : Bool
deriving DecidableEq

/-- ASCII hex digit predicate (`char::is_ascii_hexdigit`). -/
def isHexC (c : Char) : Bool :=
  (48 ≤ c.toNat ∧ c.toNat ≤ 57) || (97 ≤ c.toNat ∧ c.toNat ≤ 102)
    || (65 ≤ c.toNat ∧ c.toNat ≤ 70)

/-- Generation path of `ensure_machine_id`: derive 32 hex digits from the
kernel random UUID, write them with a trailing newline, and symlink the
D-Bus location `var/lib/dbus/machine-id` to `/etc/machine-id`. -/
def ensureFreshMachineId (env : MachineIdEnv) : Except Str MachineIdState :=
  match env.kernelUuid with
  | none => .error ("Failed to read kernel random uuid").data
  | some uuid =>
    let id := (uuid.filter isHexC).take 32
    if id.length ≠ 32 then
      .error ("Failed to derive a 32-hex machine-id from kernel uuid").data
    else .ok { machineId := id ++ ['\n'], dbusMirrored := true }

/-- Early-return branch structure of `ensure_machine_id`: keep any
existing contents whose trimmed length is at least 32 without touching
the D-Bus mirror; otherwise generate afresh. -/
def ensure_machine_id (env : MachineIdEnv) : Except Str MachineIdState :=
  match env.existing with
  | some c =>
    if 32 ≤ (trimL c).length then
      .ok { machineId := c, dbusMirrored := false }
    else ensureFreshMachineId env
  | none => ensureFreshMachineId env

/-- Validity per the spec: exactly 32 hex characters followed by the
newline the writer appends. -/
def valid32Hex (contents : Str) : Bool :=
  decide (contents.getLast? = some '\n')
    && decide (contents.dropLast.length = 32)
    && contents.dropLast.all isHexC

/-! Boot installer (`configure_boot_systemd_boot`, `blkid_uuid`,
`register_uefi_boot_entry`). -/

/-- Environment of one `efibootmgr` registration attempt. -/
structure RegEnv where
  efiPresent : Bool
  spawnOk : Bool
  exitSuccess : Bool
  stderr : Str

/-- Recognized `efibootmgr` stderr fragments that downgrade a failure to
success inside `register_uefi_boot_entry`. -/
def recognizedStderr (s : Str) : Bool :=
  decide (("EFI variables are not supported").data <:+: s)
    || decide (("Could not prepare boot variable").data <:+: s)
    || decide (("Operation not permitted").data <:+: s)
    || decide (("Read-only file system").data <:+: s)

/-- Model of `register_uefi_boot_entry`: trivially succeed outside UEFI
mode; fail if the tool cannot be spawned; succeed on success or on a
recognized stderr; fail otherwise. -/
def register_uefi_boot_entry (env : RegEnv) : Except Str Unit :=
  if ¬ env.efiPresent then .ok ()
  else if ¬ env.spawnOk then .error ("Failed to execute efibootmgr").data
  else if env.exitSuccess then .ok ()
  else if recognizedStderr env.stderr then .ok ()
  else .error (("efibootmgr failed: stderr=").data ++ env.stderr)

/-- Model of `blkid_uuid`: `none` models a spawn or exit failure; an
output that trims to empty is rejected; otherwise the trimmed UUID. -/
def blkid_uuid (res : Option Str) : Except Str Str :=
  match res with
  | none => .error ("blkid failed").data
  | some s =>
    let u := trimL s
    if u = [] then .error ("blkid returned empty UUID").data else .ok u

/-- Filesystem writes performed by `configure_boot_systemd_boot`, in
order; only `fstabWrite` targets the root filesystem, the rest target the
mounted ESP. -/
inductive BootEv where
  | fstabWrite
  | espBootx64
  | espSystemdEfi
  | espKernel
  | espInitrd
  | espLoaderConf
  | espEntry
deriving DecidableEq

/-- Whether an event writes to the mounted ESP. -/
def isEspWrite : BootEv → Bool
  | .fstabWrite => false
  | _ => true

/-- Environment of `configure_boot_systemd_boot`: the two UUID lookups,
presence of the systemd-boot binary in the initramfs, presence of a
kernel/initrd pair under `/boot`, the ESP layout verification outcome,
and the registration environment. -/
structure BootEnv where
  blkidRoot : Option Str
  blkidEsp : Option Str
  sdBootPresent : Bool
  kernelInitrdFound : Bool
  verifyOk : Bool
  reg : RegEnv

/-- Model of `configure_boot_systemd_boot`: UUID lookups first, then the
fstab write, the two ESP loader copies, the kernel/initrd copies, the
loader configuration and entry writes, the layout verification, and
finally the registration attempt whose failure is downgraded to a
warning.  Returns the step outcome and the write events performed. -/
def configure_boot_systemd_boot (env : BootEnv) : Except Str Unit × List BootEv :=
  match blkid_uuid env.blkidRoot with
  | .error e => (.error e, [])
  | .ok _rootUuid =>
    match blkid_uuid env.blkidEsp with
    | .error e => (.error e, [])
    | .ok _espUuid =>
      if ¬ env.sdBootPresent then
        (.error ("Missing systemd-boot EFI binary in initramfs").data,
         [.fstabWrite])
      else if ¬ env.kernelInitrdFound then
        (.error ("Failed to locate installed kernel or initrd").data,
         [.fstabWrite, .espBootx64, .espSystemdEfi])
      else if ¬ env.verifyOk then
        (.error ("ESP does not contain expected boot files").data,
         [.fstabWrite, .espBootx64, .espSystemdEfi, .espKernel, .espInitrd,
          .espLoaderConf, .espEntry])
      else
        (.ok (),
         [.fstabWrite, .espBootx64, .espSystemdEfi, .espKernel, .espInitrd,
          .espLoaderConf, .espEntry])

/-! Pipeline driver (`run` in `src/main.rs`). -/

/-- Environment of one driver run: whether disk selection produced a
target, whether the payload archive exists, and each subsequent step's
outcome. -/
structure RunEnv where
  chooseOk : Bool
  payloadExists : Bool
  wipefsOk : Bool
  partitionOk : Bool
  partitionsDerivable : Bool
  formatOk : Bool
  mountOk : Bool
  extractOk : Bool
  hostnameOk : Bool
  usersOk : Bool
  dhcpOk : Bool
  bootOk : Bool
  syncOk : Bool

/-- Steps the driver can attempt, in the order of `run`;
`unmountAttempt` is the best-effort unmount on an error path and
`unmountFinal` the closing unmount of a successful install. -/
inductive StepAct where
  | wipefs
  | partition
  | format
  | mount
  | extract
  | hostname
  | users
  | dhcp
  | boot
  | sync
  | unmountAttempt
  | unmountFinal
deriving DecidableEq

/-- Trace of steps the driver attempts, faithful to the control flow of
`run`: no payload means no disk work at all; a `wipefs` failure is
reported via `handle_error` but — unlike every other failure — does not
return, so partitioning is still attempted; every failure from formatting
onward returns, unmounting first once a mount has happened. -/
def runPipeline (env : RunEnv) : List StepAct :=
  if ¬ env.chooseOk then []
  else if ¬ env.payloadExists then []
  else
    .wipefs :: .partition ::
    (if ¬ env.partitionOk then []
     else if ¬ env.partitionsDerivable then []
     else .format ::
       (if ¬ env.formatOk then []
        else .mount ::
          (if ¬ env.mountOk then []
           else .extract ::
             (if ¬ env.extractOk then [.unmountAttempt]
              else .hostname ::
                (if ¬ env.hostnameOk then [.unmountAttempt]
                 else .users ::
                   (if ¬ env.usersOk then [.unmountAttempt]
                    else .dhcp ::
                      (if ¬ env.dhcpOk then [.unmountAttempt]
                       else .boot ::
                         (if ¬ env.bootOk then [.unmountAttempt]
                          else .sync ::
                            (if ¬ env.syncOk then [.unmountAttempt]
                             else [.unmountFinal])))))))))

/-- Destructive disk operations named by the driver claims. -/
def isDestructive : StepAct → Bool
  | .wipefs => true
  | .partition => true
  | .format => true
  | _ => false

/-- Both files `configure_hostname` writes, as a pair (hostname file
contents, hosts file contents). -/
def configure_hostname_files (existingHosts h : Str) : Str × Str :=
  (configure_hostname_file h, configure_hosts existingHosts h)

/-! Basic lemmas about the string primitives. -/

theorem splitNl_ne_nil (cs : Str) : splitNlL cs ≠ [] := by
  induction cs with
  | nil => simp [splitNlL]
  | cons c rest ih =>
    simp only [splitNlL]
    split
    · simp
    · cases hr : splitNlL rest with
      | nil => simp
      | cons l ls => simp

theorem splitNl_no_nl (cs : Str) : ∀ l ∈ splitNlL cs, '\n' ∉ l := by
  induction cs with
  | nil => simp [splitNlL]
  | cons c rest ih =>
    intro l hl
    simp only [splitNlL] at hl
    split at hl
    · rcases List.mem_cons.mp hl with h | h
      · simp [h]
      · exact ih l h
    · rename_i hc
      cases hr : splitNlL rest with
      | nil => exact absurd hr (splitNl_ne_nil rest)
      | cons p ps =>
        rw [hr] at hl
        rcases List.mem_cons.mp hl with h | h
        · subst h
          intro hmem
          rcases List.mem_cons.mp hmem with h | h
          · exact hc h.symm
          · exact ih p (hr ▸ List.mem_cons_self p ps) h
        · exact ih l (hr ▸ List.mem_cons_of_mem p h)

theorem splitNl_append_nl (as bs : Str) (h : '\n' ∉ as) :
    splitNlL (as ++ '\n' :: bs) = as :: splitNlL bs := by
  induction as with
  | nil => simp [splitNlL]
  | cons c rest ih =>
    have hc : c ≠ '\n' := fun hcc => h (by simp [hcc])
    have hrest : '\n' ∉ rest := fun hr => h (List.mem_cons_of_mem c hr)
    simp only [List.cons_append, splitNlL, if_neg (fun hcc => hc hcc), List.append_eq]
    rw [ih hrest]

theorem splitNl_of_no_nl (as : Str) (h : '\n' ∉ as) : splitNlL as = [as] := by
  induction as with
  | nil => simp [splitNlL]
  | cons c rest ih =>
    have hc : c ≠ '\n' := fun hcc => h (by simp [hcc])
    have hrest : '\n' ∉ rest := fun hr => h (List.mem_cons_of_mem c hr)
    simp only [splitNlL, if_neg (fun hcc => hc hcc)]
    rw [ih hrest]

theorem joinSep_cons_ne (sep x : Str) (xs : List Str) (hx : xs ≠ []) :
    joinSep sep (x :: xs) = x ++ sep ++ joinSep sep xs := by
  cases xs with
  | nil => exact absurd rfl hx
  | cons y ys => rfl

theorem joinSep_append (sep : Str) (xs ys : List Str) (hx : xs ≠ []) (hy : ys ≠ []) :
    joinSep sep (xs ++ ys) = joinSep sep xs ++ sep ++ joinSep sep ys := by
  induction xs with
  | nil => exact absurd rfl hx
  | cons a as ih =>
    cases has : as with
    | nil =>
      simp only [List.cons_append, List.nil_append]
      rw [joinSep_cons_ne sep a ys hy]
      simp [joinSep]
    | cons a' as' =>
      have hne : as ≠ [] := by rw [has]; simp
      have h1 : as ++ ys ≠ [] := by rw [has]; simp
      rw [← has]
      simp only [List.cons_append]
      rw [joinSep_cons_ne sep a (as ++ ys) h1, ih hne,
        joinSep_cons_ne sep a as hne]
      simp [List.append_assoc]

theorem mem_infix_joinSep (sep : Str) {x : Str} {xs : List Str} (hx : x ∈ xs) :
    x <:+: joinSep sep xs := by
  induction xs with
  | nil => cases hx
  | cons a as ih =>
    cases has : as with
    | nil =>
      rw [has] at hx
      have : x = a := by simpa using hx
      subst this
      exact List.infix_rfl
    | cons b bs =>
      rw [← has]
      have hne : as ≠ [] := by rw [has]; simp
      rcases List.mem_cons.mp hx with h | h
      · subst h
        rw [joinSep_cons_ne sep x as hne, List.append_assoc]
        exact (List.prefix_append x (sep ++ joinSep sep as)).isInfix
      · have h1 := ih (has ▸ h)
        rw [has] at h1 ⊢
        rw [joinSep_cons_ne sep a (b :: bs) (by simp)]
        exact h1.trans (List.suffix_append (a ++ sep) (joinSep sep (b :: bs))).isInfix

theorem splitNl_joinNl_nl (xs : List Str) (rest : Str) (hne : xs ≠ [])
    (hnl : ∀ l ∈ xs, '\n' ∉ l) :
    splitNlL (joinNlL xs ++ '\n' :: rest) = xs ++ splitNlL rest := by
  induction xs with
  | nil => exact absurd rfl hne
  | cons a as ih =>
    cases has : as with
    | nil =>
      have ha : '\n' ∉ a := hnl a (by simp)
      simp only [joinNlL, joinSep]
      rw [splitNl_append_nl a rest ha]
      simp
    | cons b bs =>
      rw [← has]
      have hne2 : as ≠ [] := by rw [has]; simp
      have ha : '\n' ∉ a := hnl a (by simp)
      have hrec := ih hne2 (fun l hl => hnl l (List.mem_cons_of_mem a hl))
      simp only [joinNlL] at hrec ⊢
      rw [joinSep_cons_ne ['\n'] a as hne2]
      have hshape : a ++ ['\n'] ++ joinSep ['\n'] as ++ '\n' :: rest
          = a ++ '\n' :: (joinSep ['\n'] as ++ '\n' :: rest) := by
        simp [List.append_assoc]
      rw [hshape, splitNl_append_nl a _ ha, hrec]
      simp

theorem joinNl_concat (xs : List Str) (y : Str) (hx : xs ≠ []) :
    joinNlL (xs ++ [y]) = joinNlL xs ++ '\n' :: y := by
  simp only [joinNlL]
  rw [joinSep_append ['\n'] xs [y] hx (by simp)]
  simp [joinSep]

theorem getLast?_joinNl_ne (xs : List Str) (l : Str) (hlast : xs.getLast? = some l)
    (hne : l ≠ []) : (joinNlL xs).getLast? = l.getLast? := by
  induction xs with
  | nil => simp at hlast
  | cons a as ih =>
    cases has : as with
    | nil =>
      rw [has] at hlast
      simp only [List.getLast?_singleton] at hlast
      cases hlast
      simp [joinNlL, joinSep]
    | cons b bs =>
      rw [← has]
      have hne2 : as ≠ [] := by rw [has]; simp
      have hlast2 : as.getLast? = some l := by
        rw [← hlast, has]
        simp [List.getLast?]
      have hrec := ih hlast2
      simp only [joinNlL] at hrec ⊢
      rw [joinSep_cons_ne ['\n'] a as hne2, List.append_assoc, List.getLast?_append,
        List.getLast?_append, hrec]
      have hsome2 : l.getLast?.isSome = true := List.getLast?_isSome.mpr hne
      cases hcl : l.getLast? with
      | none => rw [hcl] at hsome2; simp at hsome2
      | some c => rfl

theorem ensureNl_joinNl (xs : List Str) (hne : xs ≠ [])
    (hnl : ∀ l ∈ xs, '\n' ∉ l) :
    ensureNlL (joinNlL xs) = joinNlL (chompBlank xs) ++ ['\n'] := by
  have hsome : xs.getLast?.isSome = true := List.getLast?_isSome.mpr hne
  cases hlast : xs.getLast? with
  | none => rw [hlast] at hsome; simp at hsome
  | some l =>
    by_cases hl : l = []
    · subst hl
      have hx : xs = xs.dropLast ++ [[]] := by
        conv_lhs => rw [← List.dropLast_append_getLast hne]
        have : xs.getLast hne = [] := by
          have := List.getLast?_eq_getLast xs hne
          rw [hlast] at this
          exact (Option.some.injEq _ _).mp this.symm
        rw [this]
      have hchomp : chompBlank xs = xs.dropLast := by
        simp [chompBlank, hlast]
      cases hys : xs.dropLast with
      | nil =>
        rw [hchomp, hys]
        rw [hx, hys]
        simp [joinNlL, joinSep, ensureNlL]
      | cons y ys =>
        rw [hchomp]
        conv_lhs => rw [hx]
        rw [joinNl_concat xs.dropLast [] (by rw [hys]; simp)]
        have hnl2 : (joinNlL xs.dropLast ++ '\n' :: ([] : Str)).getLast? = some '\n' := by
          simp
        simp only [ensureNlL]
        rw [if_pos hnl2]
    · have hchomp : chompBlank xs = xs := by
        simp only [chompBlank, hlast]
        rw [if_neg]
        intro hcc
        exact hl ((Option.some.injEq _ _).mp hcc)
      rw [hchomp]
      have hjl := getLast?_joinNl_ne xs l hlast hl
      have hlnl : '\n' ∉ l := hnl l (List.mem_of_mem_getLast? hlast)
      have hnlast : (joinNlL xs).getLast? ≠ some '\n' := by
        rw [hjl]
        intro hcc
        exact hlnl (List.mem_of_mem_getLast? hcc)
      simp only [ensureNlL, if_neg hnlast]

theorem mem_chompBlank_of_mem (xs : List Str) (e : Str) (he : e ∈ xs) :
    e ∈ chompBlank xs ∨ e = [] := by
  by_cases hez : e = []
  · exact Or.inr hez
  · left
    simp only [chompBlank]
    split
    · rename_i hlast
      have hx : xs = xs.dropLast ++ [[]] := by
        have hne : xs ≠ [] := by
          intro hc; rw [hc] at hlast; simp at hlast
        conv_lhs => rw [← List.dropLast_append_getLast hne]
        have : xs.getLast hne = [] := by
          have := List.getLast?_eq_getLast xs hne
          rw [hlast] at this
          exact (Option.some.injEq _ _).mp this.symm
        rw [this]
      rw [hx] at he
      rcases List.mem_append.mp he with h | h
      · exact h
      · simp at h
        exact absurd h hez
    · exact he

theorem mem_of_mem_chompBlank (xs : List Str) (e : Str) (he : e ∈ chompBlank xs) :
    e ∈ xs := by
  simp only [chompBlank] at he
  split at he
  · exact List.mem_of_mem_dropLast he
  · exact he

theorem chompBlank_of_ne (xs : List Str) (h : xs.getLast? ≠ some ([] : Str)) :
    chompBlank xs = xs := by
  simp only [chompBlank]
  rw [if_neg h]

theorem chompBlank_of_eq (xs : List Str) (h : xs.getLast? = some ([] : Str)) :
    chompBlank xs = xs.dropLast := by
  simp only [chompBlank]
  rw [if_pos h]

theorem rustLines_rebuild (xs : List Str) (hne : xs ≠ [])
    (hnl : ∀ l ∈ xs, '\n' ∉ l) (hch : chompBlank xs ≠ []) :
    rustLinesL (ensureNlL (joinNlL xs)) = (chompBlank xs).map stripCrL := by
  rw [ensureNl_joinNl xs hne hnl]
  have hnl2 : ∀ l ∈ chompBlank xs, '\n' ∉ l :=
    fun l hl => hnl l (mem_of_mem_chompBlank xs l hl)
  simp only [rustLinesL]
  have : joinNlL (chompBlank xs) ++ ['\n'] = joinNlL (chompBlank xs) ++ '\n' :: [] := rfl
  rw [this, splitNl_joinNl_nl (chompBlank xs) [] hch hnl2]
  have hsp : splitNlL [] = [[]] := rfl
  rw [hsp]
  have hcc : chompBlank (chompBlank xs ++ [[]]) = chompBlank xs := by
    simp [chompBlank, List.getLast?_concat, List.dropLast_concat]
  rw [hcc]

theorem getLast?_append_ne {α : Type} (P rest : List α) (h : rest ≠ []) :
    (P ++ rest).getLast? = rest.getLast? := by
  rw [List.getLast?_append]
  have : rest.getLast?.isSome = true := List.getLast?_isSome.mpr h
  cases hz : rest.getLast? with
  | none => rw [hz] at this; simp at this
  | some z => rfl

theorem dropLast_append_ne {α : Type} (P rest : List α) (h : rest ≠ []) :
    (P ++ rest).dropLast = P ++ rest.dropLast := by
  have hsh : P ++ rest = (P ++ rest.dropLast) ++ [rest.getLast h] := by
    rw [List.append_assoc, List.dropLast_append_getLast h]
  rw [hsh, List.dropLast_concat]

theorem stripCr_append (P rest : Str) (h : rest ≠ []) :
    stripCrL (P ++ rest) = P ++ stripCrL rest := by
  simp only [stripCrL, getLast?_append_ne P rest h]
  by_cases hc : rest.getLast? = some '\r'
  · rw [if_pos hc, if_pos hc, dropLast_append_ne P rest h]
  · rw [if_neg hc, if_neg hc]

theorem stripCr_subset (l : Str) : ∀ c ∈ stripCrL l, c ∈ l := by
  intro c hc
  simp only [stripCrL] at hc
  split at hc
  · exact List.mem_of_mem_dropLast hc
  · exact hc

theorem dropWhile_head_false (p : Char → Bool) (l : Str) (c : Char)
    (h : l.head? = some c) (hp : p c = false) : l.dropWhile p = l := by
  cases l with
  | nil => simp at h
  | cons a as =>
    simp only [List.head?_cons] at h
    cases h
    simp [List.dropWhile_cons, hp]

theorem trim_append_keeps (P rest : Str) (c0 : Char) (hh : P.head? = some c0)
    (hw0 : isWsC c0 = false) (cl : Char) (hl : P.getLast? = some cl)
    (hwl : isWsC cl = false) : ∃ t, trimL (P ++ rest) = P ++ t := by
  cases P with
  | nil => simp at hh
  | cons p0 ps =>
    simp only [List.head?_cons] at hh
    cases hh
    simp only [trimL, List.cons_append]
    rw [List.dropWhile_cons, if_neg (by rw [hw0]; simp)]
    rw [show (c0 :: (ps ++ rest)) = (c0 :: ps) ++ rest from rfl, List.reverse_append,
      List.dropWhile_append]
    have hdP : List.dropWhile isWsC (c0 :: ps).reverse = (c0 :: ps).reverse := by
      apply dropWhile_head_false isWsC _ cl _ hwl
      rw [List.head?_reverse]
      exact hl
    split
    · rename_i hemp
      refine ⟨[], ?_⟩
      rw [hdP, List.reverse_reverse, List.append_nil]
    · refine ⟨(List.dropWhile isWsC rest.reverse).reverse, ?_⟩
      rw [List.reverse_append, List.reverse_reverse]
      rfl

theorem prefixOf_trim_append (P rest : Str) (c0 : Char) (hh : P.head? = some c0)
    (hw0 : isWsC c0 = false) (cl : Char) (hl : P.getLast? = some cl)
    (hwl : isWsC cl = false) : P.isPrefixOf (trimL (P ++ rest)) = true := by
  obtain ⟨t, ht⟩ := trim_append_keeps P rest c0 hh hw0 cl hl hwl
  rw [ht]
  exact List.isPrefixOf_iff_prefix.mpr (List.prefix_append P t)

theorem is127011_hostLine (h : Str) : is127011 (hostLine h) = true := by
  simp only [is127011, hostLine]
  exact prefixOf_trim_append ip4Host ('\t' :: h) '1' (by decide) (by decide)
    '1' (by decide) (by decide)

theorem is127011_stripCr_hostLine (h : Str) : is127011 (stripCrL (hostLine h)) = true := by
  have hsc : stripCrL (hostLine h) = ip4Host ++ stripCrL ('\t' :: h) := by
    simp only [hostLine]
    exact stripCr_append ip4Host ('\t' :: h) (by simp)
  simp only [is127011, hsc]
  exact prefixOf_trim_append ip4Host (stripCrL ('\t' :: h)) '1' (by decide) (by decide)
    '1' (by decide) (by decide)

theorem is127001_localhostLine : is127001 localhostLine = true := by decide

theorem not_is127011_localhostLine : is127011 localhostLine = false := by decide

theorem is127011_eq_false_of_is127001 (l : Str) (h : is127001 l = true) :
    is127011 l = false := by
  by_contra hc
  rw [Bool.not_eq_false] at hc
  obtain ⟨r1, e1⟩ := List.isPrefixOf_iff_prefix.mp h
  obtain ⟨r2, e2⟩ := List.isPrefixOf_iff_prefix.mp hc
  have hlen : ip4Local.length = ip4Host.length := by decide
  obtain ⟨he, -⟩ := List.append_inj (e1.trans e2.symm) hlen
  exact absurd he (by decide)

theorem is127001_eq_false_of_is127011 (l : Str) (h : is127011 l = true) :
    is127001 l = false := by
  by_contra hc
  rw [Bool.not_eq_false] at hc
  rw [is127011_eq_false_of_is127001 l hc] at h
  cases h

theorem procLines_nil (h : Str) (hasL wrote : Bool) :
    procLines h [] hasL wrote
      = (if hasL then [] else [localhostLine])
        ++ (if wrote then [] else [hostLine h]) := rfl

theorem procLines_cons (h l : Str) (ls : List Str) (hasL wrote : Bool) :
    procLines h (l :: ls) hasL wrote
      = if is127011 l then
          (if wrote then [] else [hostLine h])
            ++ procLines h ls (hasL || is127001 l) true
        else l :: procLines h ls (hasL || is127001 l) wrote := rfl

theorem procLines_classify (h : Str) (ls : List Str) :
    ∀ hasL wrote : Bool, ∀ e ∈ procLines h ls hasL wrote,
      e ∈ ls ∨ e = localhostLine ∨ e = hostLine h := by
  induction ls with
  | nil =>
    intro hasL wrote e he
    rw [procLines_nil] at he
    rcases List.mem_append.mp he with h1 | h1
    · right; left
      cases hasL
      · simpa using h1
      · simp at h1
    · right; right
      cases wrote
      · simpa using h1
      · simp at h1
  | cons l ls ih =>
    intro hasL wrote e he
    rw [procLines_cons] at he
    by_cases hc : is127011 l = true
    · rw [if_pos hc] at he
      rcases List.mem_append.mp he with h1 | h1
      · right; right
        cases wrote
        · simpa using h1
        · simp at h1
      · rcases ih _ _ e h1 with h2 | h2
        · exact Or.inl (List.mem_cons_of_mem l h2)
        · exact Or.inr h2
    · rw [if_neg hc] at he
      rcases List.mem_cons.mp he with h1 | h1
      · exact Or.inl (h1 ▸ List.mem_cons_self l ls)
      · rcases ih _ _ e h1 with h2 | h2
        · exact Or.inl (List.mem_cons_of_mem l h2)
        · exact Or.inr h2

theorem procLines_free (h : Str) (ls : List Str) :
    ∀ hasL : Bool, ∀ e ∈ procLines h ls hasL true, is127011 e = false := by
  induction ls with
  | nil =>
    intro hasL e he
    rw [procLines_nil, if_pos rfl, List.append_nil] at he
    cases hasL
    · have : e = localhostLine := by simpa using he
      rw [this]
      exact not_is127011_localhostLine
    · simp at he
  | cons l ls ih =>
    intro hasL e he
    rw [procLines_cons] at he
    by_cases hc : is127011 l = true
    · rw [if_pos hc, if_pos rfl, List.nil_append] at he
      exact ih _ e he
    · rw [if_neg hc] at he
      rcases List.mem_cons.mp he with h1 | h1
      · rw [h1]
        exact Bool.eq_false_iff.mpr hc
      · exact ih _ e h1

theorem procLines_decomp (h : Str) (ls : List Str) :
    ∀ hasL : Bool, ∃ d1 d2, procLines h ls hasL false = d1 ++ hostLine h :: d2
      ∧ (∀ e ∈ d1, is127011 e = false) ∧ (∀ e ∈ d2, is127011 e = false) := by
  induction ls with
  | nil =>
    intro hasL
    refine ⟨if hasL then [] else [localhostLine], [], ?_, ?_, by simp⟩
    · rw [procLines_nil]
      cases hasL <;> simp
    · intro e he
      cases hasL
      · have : e = localhostLine := by simpa using he
        rw [this]
        exact not_is127011_localhostLine
      · simp at he
  | cons l ls ih =>
    intro hasL
    by_cases hc : is127011 l = true
    · refine ⟨[], procLines h ls (hasL || is127001 l) true, ?_, by simp, ?_⟩
      · rw [procLines_cons, if_pos hc, if_neg (by simp), List.nil_append]
        rfl
      · exact procLines_free h ls _
    · obtain ⟨d1, d2, heq, hd1, hd2⟩ := ih (hasL || is127001 l)
      refine ⟨l :: d1, d2, ?_, ?_, hd2⟩
      · rw [procLines_cons, if_neg hc, heq]
        rfl
      · intro e he
        rcases List.mem_cons.mp he with h1 | h1
        · rw [h1]
          exact Bool.eq_false_iff.mpr hc
        · exact hd1 e h1

theorem procLines_localhost (h : Str) (ls : List Str) :
    ∀ wrote : Bool, ∃ e ∈ procLines h ls false wrote, is127001 e = true := by
  induction ls with
  | nil =>
    intro wrote
    refine ⟨localhostLine, ?_, is127001_localhostLine⟩
    rw [procLines_nil, if_neg (by simp)]
    exact List.mem_append_left _ (by simp)
  | cons l ls ih =>
    intro wrote
    by_cases hc : is127001 l = true
    · have hne : is127011 l = false := is127011_eq_false_of_is127001 l hc
      refine ⟨l, ?_, hc⟩
      rw [procLines_cons, if_neg (by simp [hne])]
      exact List.mem_cons_self l _
    · have hc' : is127001 l = false := Bool.eq_false_iff.mpr hc
      rw [procLines_cons]
      by_cases hb : is127011 l = true
      · rw [if_pos hb]
        obtain ⟨e, he, hp⟩ := ih true
        rw [hc', Bool.or_false]
        exact ⟨e, List.mem_append_right _ he, hp⟩
      · rw [if_neg hb]
        obtain ⟨e, he, hp⟩ := ih wrote
        rw [hc', Bool.or_false]
        exact ⟨e, List.mem_cons_of_mem l he, hp⟩

theorem procLines_fix_wrote (h : Str) (ls : List Str) :
    ∀ hasL : Bool, (∀ e ∈ ls, is127011 e = false) →
      (hasL = true ∨ ∃ e ∈ ls, is127001 e = true) →
      procLines h ls hasL true = ls := by
  induction ls with
  | nil =>
    intro hasL _ hloc
    rcases hloc with h1 | h1
    · rw [procLines_nil, if_pos h1, if_pos rfl]
      rfl
    · simp at h1
  | cons l ls ih =>
    intro hasL hfree hloc
    have hl : is127011 l = false := hfree l (List.mem_cons_self l ls)
    rw [procLines_cons, if_neg (by simp [hl])]
    congr 1
    apply ih
    · exact fun e he => hfree e (List.mem_cons_of_mem l he)
    · rcases hloc with h1 | h1
      · rw [h1]; left; simp
      · obtain ⟨e, he, hp⟩ := h1
        rcases List.mem_cons.mp he with h2 | h2
        · left
          rw [h2] at hp
          rw [hp]
          simp
        · exact Or.inr ⟨e, h2, hp⟩

theorem procLines_prefix_fix (h : Str) (d1 : List Str) :
    ∀ (a : Str) (d2 : List Str) (hasL : Bool),
      (∀ e ∈ d1, is127011 e = false) → is127011 a = true →
      (∀ e ∈ d2, is127011 e = false) →
      (hasL = true ∨ (∃ e ∈ d1, is127001 e = true) ∨ (∃ e ∈ d2, is127001 e = true)) →
      procLines h (d1 ++ a :: d2) hasL false = d1 ++ hostLine h :: d2 := by
  induction d1 with
  | nil =>
    intro a d2 hasL _ ha hd2 hloc
    have ha' : is127001 a = false := is127001_eq_false_of_is127011 a ha
    rw [List.nil_append, procLines_cons, if_pos ha, if_neg (by simp), ha',
      Bool.or_false]
    rw [procLines_fix_wrote h d2 hasL hd2 ?_]
    · rfl
    · rcases hloc with h1 | h1 | h1
      · exact Or.inl h1
      · obtain ⟨e, he, -⟩ := h1; simp at he
      · exact Or.inr h1
  | cons c d1' ih =>
    intro a d2 hasL hd1 ha hd2 hloc
    have hc : is127011 c = false := hd1 c (List.mem_cons_self c d1')
    rw [List.cons_append, procLines_cons, if_neg (by simp [hc])]
    rw [List.cons_append]
    congr 1
    apply ih a d2 _ (fun e he => hd1 e (List.mem_cons_of_mem c he)) ha hd2
    rcases hloc with h1 | h1 | h1
    · rw [h1]; left; simp
    · obtain ⟨e, he, hp⟩ := h1
      rcases List.mem_cons.mp he with h2 | h2
      · left
        rw [h2] at hp
        rw [hp]
        simp
      · exact Or.inr (Or.inl ⟨e, h2, hp⟩)
    · exact Or.inr (Or.inr h1)

theorem map_id_of_fix {α : Type} (f : α → α) (l : List α) (h : ∀ e ∈ l, f e = e) :
    l.map f = l := by
  induction l with
  | nil => rfl
  | cons a as ih =>
    rw [List.map_cons, h a (List.mem_cons_self a as),
      ih (fun e he => h e (List.mem_cons_of_mem a he))]

theorem rustLines_no_nl (x : Str) : ∀ e ∈ rustLinesL x, '\n' ∉ e := by
  intro e he
  simp only [rustLinesL] at he
  obtain ⟨p, hp, hpe⟩ := List.mem_map.mp he
  intro hmem
  rw [← hpe] at hmem
  exact splitNl_no_nl x p (mem_of_mem_chompBlank _ p hp) (stripCr_subset p '\n' hmem)

theorem hostLine_no_nl (h : Str) (h1 : '\n' ∉ h) : '\n' ∉ hostLine h := by
  intro hmem
  simp only [hostLine] at hmem
  rcases List.mem_append.mp hmem with hm | hm
  · exact absurd hm (by decide)
  · rcases List.mem_cons.mp hm with hm2 | hm2
    · cases hm2
    · exact h1 hm2

/-- Second application of the hosts rewriter is the identity on any
rendered line list in canonical form: a unique `127.0.1.1` entry equal to
the pushed host line, some `127.0.0.1` entry, lines free of embedded
newlines and fixed by carriage-return stripping, no trailing empty line,
and the `::1` marker present in the rendered text. -/
theorem configure_hosts_run2 (h : Str) (D e1 e2 : List Str)
    (hdec : D = e1 ++ hostLine h :: e2)
    (he1 : ∀ e ∈ e1, is127011 e = false)
    (he2 : ∀ e ∈ e2, is127011 e = false)
    (hnl : ∀ e ∈ D, '\n' ∉ e)
    (hchomp : chompBlank D = D)
    (hfix : ∀ e ∈ D, is127011 e = false → stripCrL e = e)
    (hw : ∃ w ∈ D, is127001 w = true)
    (hmark : ip6Marker <:+: (joinNlL D ++ ['\n'])) :
    configure_hosts (joinNlL D ++ ['\n']) h = joinNlL D ++ ['\n'] := by
  have hDne : D ≠ [] := by rw [hdec]; simp
  have hENJ : ensureNlL (joinNlL D) = joinNlL D ++ ['\n'] := by
    rw [ensureNl_joinNl D hDne hnl, hchomp]
  have hlines : rustLinesL (joinNlL D ++ ['\n']) = D.map stripCrL := by
    rw [← hENJ, rustLines_rebuild D hDne hnl (by rw [hchomp]; exact hDne), hchomp]
  have hmape1 : e1.map stripCrL = e1 :=
    map_id_of_fix _ e1 (fun e he =>
      hfix e (by rw [hdec]; exact List.mem_append_left _ he) (he1 e he))
  have hmape2 : e2.map stripCrL = e2 :=
    map_id_of_fix _ e2 (fun e he =>
      hfix e (by rw [hdec]; exact List.mem_append_right _ (List.mem_cons_of_mem _ he))
        (he2 e he))
  have hmap : D.map stripCrL = e1 ++ stripCrL (hostLine h) :: e2 := by
    rw [hdec, List.map_append, List.map_cons, hmape1, hmape2]
  -- the localhost witness sits in one of the two free sides
  obtain ⟨w, hwD, hw1⟩ := hw
  have hwside : (∃ e ∈ e1, is127001 e = true) ∨ (∃ e ∈ e2, is127001 e = true) := by
    rw [hdec] at hwD
    rcases List.mem_append.mp hwD with hm | hm
    · exact Or.inl ⟨w, hm, hw1⟩
    · rcases List.mem_cons.mp hm with hm2 | hm2
      · rw [hm2] at hw1
        rw [is127001_eq_false_of_is127011 _ (is127011_hostLine h)] at hw1
        cases hw1
      · exact Or.inr ⟨w, hm2, hw1⟩
  have hout : hostsOut h (rustLinesL (joinNlL D ++ ['\n'])) = D := by
    rw [hlines, hmap]
    simp only [hostsOut]
    rw [procLines_prefix_fix h e1 (stripCrL (hostLine h)) e2 false he1
      (is127011_stripCr_hostLine h) he2 (Or.inr hwside)]
    rw [hdec]
  simp only [configure_hosts, renderHosts, hout, hENJ]
  rw [decide_eq_true hmark, if_pos rfl]

/-- Idempotence of the hosts rewrite under the stated side conditions:
the hostname carries no newline, no original line retains a trailing
carriage return after splitting, and the rewritten line list does not end
with two empty lines. -/
theorem configure_hosts_idem (x h : Str) (h1 : '\n' ∉ h)
    (h2 : ∀ l ∈ rustLinesL x, stripCrL l = l)
    (h3 : (chompBlank (hostsOut h (rustLinesL x))).getLast? ≠ some ([] : Str)) :
    configure_hosts (configure_hosts x h) h = configure_hosts x h := by
  obtain ⟨d1, d2, hOdec, hd1, hd2⟩ := procLines_decomp h (rustLinesL x) false
  have hOdec' : hostsOut h (rustLinesL x) = d1 ++ hostLine h :: d2 := hOdec
  set O := hostsOut h (rustLinesL x) with hOdef
  have hAne : hostLine h ≠ [] := by simp [hostLine]
  have hAmem : hostLine h ∈ O := by
    rw [hOdec']
    exact List.mem_append_right _ (List.mem_cons_self _ _)
  have hOne : O ≠ [] := by rw [hOdec']; simp
  have hOnl : ∀ e ∈ O, '\n' ∉ e := by
    intro e he
    rcases procLines_classify h (rustLinesL x) false false e he with hm | hm | hm
    · exact rustLines_no_nl x e hm
    · rw [hm]; decide
    · rw [hm]; exact hostLine_no_nl h h1
  set D := chompBlank O with hDdef
  have hDne : D ≠ [] := by
    rcases mem_chompBlank_of_mem O (hostLine h) hAmem with hm | hm
    · intro hc
      rw [hDdef] at hc
      rw [hc] at hm
      cases hm
    · exact absurd hm hAne
  have hDnl : ∀ e ∈ D, '\n' ∉ e := fun e he => hOnl e (mem_of_mem_chompBlank O e he)
  have hDchomp : chompBlank D = D := chompBlank_of_ne D h3
  -- decomposition of D around the host line
  have hDdec : ∃ e2, D = d1 ++ hostLine h :: e2 ∧ (∀ e ∈ e2, is127011 e = false) := by
    by_cases hlast : O.getLast? = some ([] : Str)
    · have hd2ne : d2 ≠ [] := by
        intro hc
        rw [hOdec', hc] at hlast
        rw [getLast?_append_ne d1 [hostLine h] (by simp)] at hlast
        simp only [List.getLast?_singleton] at hlast
        exact hAne ((Option.some.injEq _ _).mp hlast)
      have hd2last : d2.getLast? = some ([] : Str) := by
        rw [hOdec'] at hlast
        rw [getLast?_append_ne d1 (hostLine h :: d2) (by simp)] at hlast
        cases hd : d2 with
        | nil => exact absurd hd hd2ne
        | cons b bs =>
          rw [hd] at hlast
          rwa [List.getLast?_cons_cons] at hlast
      refine ⟨d2.dropLast, ?_, fun e he => hd2 e (List.mem_of_mem_dropLast he)⟩
      rw [hDdef, chompBlank_of_eq O hlast, hOdec',
        dropLast_append_ne d1 (hostLine h :: d2) (by simp),
        show (hostLine h :: d2) = [hostLine h] ++ d2 from rfl,
        dropLast_append_ne [hostLine h] d2 hd2ne]
      rfl
    · refine ⟨d2, ?_, hd2⟩
      rw [hDdef, chompBlank_of_ne O hlast, hOdec']
  obtain ⟨e2, hDdec, he2⟩ := hDdec
  have hfix : ∀ e ∈ D, is127011 e = false → stripCrL e = e := by
    intro e heD hef
    rcases procLines_classify h (rustLinesL x) false false e
        (mem_of_mem_chompBlank O e heD) with hm | hm | hm
    · exact h2 e hm
    · rw [hm]; decide
    · rw [hm] at hef
      rw [is127011_hostLine h] at hef
      cases hef
  have hwD : ∃ w ∈ D, is127001 w = true := by
    obtain ⟨w, hwO, hw1⟩ := procLines_localhost h (rustLinesL x) false
    have hwne : w ≠ [] := by
      intro hc
      rw [hc] at hw1
      exact absurd hw1 (by decide)
    rcases mem_chompBlank_of_mem O w hwO with hm | hm
    · exact ⟨w, hm, hw1⟩
    · exact absurd hm hwne
  have hS : ensureNlL (joinNlL O) = joinNlL D ++ ['\n'] :=
    ensureNl_joinNl O hOne hOnl
  -- case split on the first run's ::1 check
  by_cases hmark : ip6Marker <:+: ensureNlL (joinNlL O)
  · have hR1 : configure_hosts x h = joinNlL D ++ ['\n'] := by
      simp only [configure_hosts, renderHosts, ← hOdef]
      rw [decide_eq_true hmark, if_pos rfl, hS]
    rw [hR1]
    exact configure_hosts_run2 h D d1 e2 hDdec hd1 he2 hDnl hDchomp hfix hwD
      (hS ▸ hmark)
  · -- the IPv6 block is appended; the rendered text is the join of the
    -- extended line list
    set Z := D ++ [ip6Line1, ip6Line2, ip6Line3] with hZdef
    have hZne : Z ≠ [] := by rw [hZdef]; simp
    have hR1 : configure_hosts x h = joinNlL Z ++ ['\n'] := by
      simp only [configure_hosts, renderHosts, ← hOdef]
      rw [decide_eq_false hmark, if_neg (by simp), hS, hZdef]
      simp only [joinNlL]
      rw [joinSep_append ['\n'] D [ip6Line1, ip6Line2, ip6Line3] hDne (by simp)]
      simp only [joinSep, ipv6Block]
      simp [List.append_assoc]
    rw [hR1]
    have hZdec : Z = d1 ++ hostLine h :: (e2 ++ [ip6Line1, ip6Line2, ip6Line3]) := by
      rw [hZdef, hDdec]
      simp [List.append_assoc]
    have hZe2 : ∀ e ∈ e2 ++ [ip6Line1, ip6Line2, ip6Line3], is127011 e = false := by
      intro e he
      rcases List.mem_append.mp he with hm | hm
      · exact he2 e hm
      · rcases List.mem_cons.mp hm with hm2 | hm2
        · rw [hm2]; decide
        · rcases List.mem_cons.mp hm2 with hm3 | hm3
          · rw [hm3]; decide
          · rcases List.mem_cons.mp hm3 with hm4 | hm4
            · rw [hm4]; decide
            · cases hm4
    have hZnl : ∀ e ∈ Z, '\n' ∉ e := by
      intro e he
      rcases List.mem_append.mp (hZdef ▸ he) with hm | hm
      · exact hDnl e hm
      · rcases List.mem_cons.mp hm with hm2 | hm2
        · rw [hm2]; decide
        · rcases List.mem_cons.mp hm2 with hm3 | hm3
          · rw [hm3]; decide
          · rcases List.mem_cons.mp hm3 with hm4 | hm4
            · rw [hm4]; decide
            · cases hm4
    have hZchomp : chompBlank Z = Z := by
      simp only [chompBlank]
      rw [if_neg]
      rw [hZdef, getLast?_append_ne _ _ (by simp)]
      intro hc
      simp only [List.getLast?_cons_cons, List.getLast?_singleton] at hc
      exact absurd ((Option.some.injEq _ _).mp hc).symm (by decide)
    have hZfix : ∀ e ∈ Z, is127011 e = false → stripCrL e = e := by
      intro e he hef
      rcases List.mem_append.mp (hZdef ▸ he) with hm | hm
      · exact hfix e hm hef
      · rcases List.mem_cons.mp hm with hm2 | hm2
        · rw [hm2]; decide
        · rcases List.mem_cons.mp hm2 with hm3 | hm3
          · rw [hm3]; decide
          · rcases List.mem_cons.mp hm3 with hm4 | hm4
            · rw [hm4]; decide
            · cases hm4
    have hZw : ∃ w ∈ Z, is127001 w = true := by
      obtain ⟨w, hm, hp⟩ := hwD
      exact ⟨w, hZdef ▸ List.mem_append_left _ hm, hp⟩
    have hZmark : ip6Marker <:+: (joinNlL Z ++ ['\n']) := by
      have h1m : ip6Marker <+: ip6Line1 := by decide
      have h2m : ip6Line1 <:+: joinNlL Z :=
        mem_infix_joinSep ['\n'] (by rw [hZdef]; exact List.mem_append_right _ (by simp))
      exact ((h1m.isInfix).trans h2m).trans (List.prefix_append _ _).isInfix
    exact configure_hosts_run2 h Z d1 (e2 ++ [ip6Line1, ip6Line2, ip6Line3])
      hZdec hd1 hZe2 hZnl hZchomp hZfix hZw hZmark

theorem procLines_filter_keep (h : Str) (ls : List Str) :
    ∀ hasL wrote : Bool,
      (procLines h ls hasL wrote).filter (fun e => ! is127011 e)
        = ls.filter (fun e => ! is127011 e)
          ++ (if hasL || ls.any (fun e => is127001 e) then [] else [localhostLine]) := by
  induction ls with
  | nil =>
    intro hasL wrote
    rw [procLines_nil, List.filter_append]
    cases hasL <;> cases wrote <;>
      simp [is127011_hostLine, not_is127011_localhostLine]
  | cons l ls ih =>
    intro hasL wrote
    rw [procLines_cons]
    by_cases hc : is127011 l = true
    · have hc' : is127001 l = false := is127001_eq_false_of_is127011 l hc
      rw [if_pos hc, List.filter_append, ih (hasL || is127001 l) true,
        List.filter_cons, hc, hc']
      cases wrote <;> simp [is127011_hostLine, hc']
    · have hcf : is127011 l = false := Bool.eq_false_iff.mpr hc
      rw [if_neg hc, List.filter_cons, List.filter_cons, hcf,
        ih (hasL || is127001 l) wrote]
      simp [Bool.or_assoc]

theorem procLines_filter_host (h : Str) (ls : List Str) :
    ∀ hasL wrote : Bool,
      (procLines h ls hasL wrote).filter (fun e => is127011 e)
        = if wrote then [] else [hostLine h] := by
  induction ls with
  | nil =>
    intro hasL wrote
    rw [procLines_nil, List.filter_append]
    cases hasL <;> cases wrote <;>
      simp [is127011_hostLine, not_is127011_localhostLine]
  | cons l ls ih =>
    intro hasL wrote
    rw [procLines_cons]
    by_cases hc : is127011 l = true
    · rw [if_pos hc, List.filter_append, ih (hasL || is127001 l) true]
      cases wrote <;> simp [is127011_hostLine]
    · have hcf : is127011 l = false := Bool.eq_false_iff.mpr hc
      rw [if_neg hc, List.filter_cons, hcf]
      simp only [Bool.false_eq_true, if_false]
      exact ih (hasL || is127001 l) wrote

/-- C5 (counterexample): on a hosts file already containing `::1`,
`127.0.0.1` and `127.0.1.1` entries and ending in two blank lines, a
second run of the hostname configurator shortens the trailing blank
lines, so the rewritten files are not byte-identical to the first run's.
This falsifies the claim as stated, which quantifies over every initial
hosts content. -/
theorem c5_counterexample :
    configure_hostname_files
        (configure_hosts (("::1 a\n127.0.0.1 b\n127.0.1.1 c\n\n\n").data) (("h").data))
        (("h").data)
      ≠ configure_hostname_files (("::1 a\n127.0.0.1 b\n127.0.1.1 c\n\n\n").data)
          (("h").data) := by
  decide

/-- C5 (amended): configure_hostname is idempotent — a second run with
the same hostname leaves /etc/hostname and /etc/hosts byte-identical —
provided the hostname contains no newline, no line of the initial hosts
content keeps a trailing carriage return after line splitting, and the
rewritten line list does not end with two blank lines (the counterexample
shows the claim fails without the last condition). -/
theorem c5_amended (x h : Str) (h1 : '\n' ∉ h)
    (h2 : ∀ l ∈ rustLinesL x, stripCrL l = l)
    (h3 : (chompBlank (hostsOut h (rustLinesL x))).getLast? ≠ some ([] : Str)) :
    configure_hostname_files (configure_hosts x h) h
      = configure_hostname_files x h := by
  simp only [configure_hostname_files]
  rw [configure_hosts_idem x h h1 h2 h3]

theorem c5_amended_witness :
    configure_hostname_files
        (configure_hosts (("127.0.0.1 localhost\n").data) (("myhost").data))
        (("myhost").data)
      = configure_hostname_files (("127.0.0.1 localhost\n").data) (("myhost").data) :=
  c5_amended (("127.0.0.1 localhost\n").data) (("myhost").data)
    (by decide) (by decide) (by decide)

theorem stripCr_localhostLine : stripCrL localhostLine = localhostLine := by
  decide

theorem stripCr_hostLine_fix (h : Str) (hcr : '\r' ∉ h) :
    stripCrL (hostLine h) = hostLine h := by
  simp only [stripCrL]
  rw [if_neg]
  intro hc
  have hmem := List.mem_of_mem_getLast? hc
  simp only [hostLine] at hmem
  rcases List.mem_append.mp hmem with hm | hm
  · exact absurd hm (by decide)
  · rcases List.mem_cons.mp hm with hm2 | hm2
    · cases hm2
    · exact hcr hm2

/-- The line list read back from the rendered hosts file: the rewritten
list with a trailing blank line (if any) dropped by the newline join,
plus the three IPv6 default lines when the `::1` marker is absent from
the rendered text. -/
theorem configure_hosts_file_lines (x h : Str) (h1 : '\n' ∉ h) (hcr : '\r' ∉ h)
    (h2 : ∀ l ∈ rustLinesL x, stripCrL l = l) :
    rustLinesL (configure_hosts x h)
      = chompBlank (hostsOut h (rustLinesL x))
        ++ (if ip6Marker <:+: ensureNlL (joinNlL (hostsOut h (rustLinesL x)))
            then [] else [ip6Line1, ip6Line2, ip6Line3]) := by
  obtain ⟨d1, d2, hOdec, -, -⟩ := procLines_decomp h (rustLinesL x) false
  have hOdec' : hostsOut h (rustLinesL x) = d1 ++ hostLine h :: d2 := hOdec
  set O := hostsOut h (rustLinesL x) with hOdef
  have hAne : hostLine h ≠ [] := by simp [hostLine]
  have hAmem : hostLine h ∈ O := by
    rw [hOdec']
    exact List.mem_append_right _ (List.mem_cons_self _ _)
  have hOne : O ≠ [] := by rw [hOdec']; simp
  have hOnl : ∀ e ∈ O, '\n' ∉ e := by
    intro e he
    rcases procLines_classify h (rustLinesL x) false false e he with hm | hm | hm
    · exact rustLines_no_nl x e hm
    · rw [hm]; decide
    · rw [hm]; exact hostLine_no_nl h h1
  have hfixO : ∀ e ∈ O, stripCrL e = e := by
    intro e he
    rcases procLines_classify h (rustLinesL x) false false e he with hm | hm | hm
    · exact h2 e hm
    · rw [hm]; exact stripCr_localhostLine
    · rw [hm]; exact stripCr_hostLine_fix h hcr
  set D := chompBlank O with hDdef
  have hDne : D ≠ [] := by
    rcases mem_chompBlank_of_mem O (hostLine h) hAmem with hm | hm
    · intro hc
      rw [hDdef] at hc
      rw [hc] at hm
      cases hm
    · exact absurd hm hAne
  have hDnl : ∀ e ∈ D, '\n' ∉ e := fun e he => hOnl e (mem_of_mem_chompBlank O e he)
  have hDfix : ∀ e ∈ D, stripCrL e = e :=
    fun e he => hfixO e (mem_of_mem_chompBlank O e he)
  have hS : ensureNlL (joinNlL O) = joinNlL D ++ ['\n'] := by
    rw [ensureNl_joinNl O hOne hOnl, hDdef]
  by_cases hmark : ip6Marker <:+: ensureNlL (joinNlL O)
  · rw [if_pos hmark, List.append_nil]
    have hR : configure_hosts x h = ensureNlL (joinNlL O) := by
      simp only [configure_hosts, renderHosts, ← hOdef]
      rw [decide_eq_true hmark, if_pos rfl]
    rw [hR, rustLines_rebuild O hOne hOnl (by rw [← hDdef]; exact hDne), ← hDdef]
    exact map_id_of_fix _ D hDfix
  · rw [if_neg hmark]
    set Z := D ++ [ip6Line1, ip6Line2, ip6Line3] with hZdef
    have hZne : Z ≠ [] := by rw [hZdef]; simp
    have hR : configure_hosts x h = joinNlL Z ++ ['\n'] := by
      simp only [configure_hosts, renderHosts, ← hOdef]
      rw [decide_eq_false hmark, if_neg (by simp), hS, hZdef]
      simp only [joinNlL]
      rw [joinSep_append ['\n'] D [ip6Line1, ip6Line2, ip6Line3] hDne (by simp)]
      simp only [joinSep, ipv6Block]
      simp [List.append_assoc]
    have hZnl : ∀ e ∈ Z, '\n' ∉ e := by
      intro e he
      rcases List.mem_append.mp (hZdef ▸ he) with hm | hm
      · exact hDnl e hm
      · rcases List.mem_cons.mp hm with hm2 | hm2
        · rw [hm2]; decide
        · rcases List.mem_cons.mp hm2 with hm3 | hm3
          · rw [hm3]; decide
          · rcases List.mem_cons.mp hm3 with hm4 | hm4
            · rw [hm4]; decide
            · cases hm4
    have hZfix : ∀ e ∈ Z, stripCrL e = e := by
      intro e he
      rcases List.mem_append.mp (hZdef ▸ he) with hm | hm
      · exact hDfix e hm
      · rcases List.mem_cons.mp hm with hm2 | hm2
        · rw [hm2]; decide
        · rcases List.mem_cons.mp hm2 with hm3 | hm3
          · rw [hm3]; decide
          · rcases List.mem_cons.mp hm3 with hm4 | hm4
            · rw [hm4]; decide
            · cases hm4
    rw [hR]
    simp only [rustLinesL]
    have hsh : joinNlL Z ++ ['\n'] = joinNlL Z ++ '\n' :: [] := rfl
    rw [hsh, splitNl_joinNl_nl Z [] hZne hZnl]
    have hsp : splitNlL [] = [[]] := rfl
    rw [hsp]
    have hcc : chompBlank (Z ++ [[]]) = Z := by
      simp [chompBlank, List.getLast?_concat, List.dropLast_concat]
    rw [hcc]
    exact map_id_of_fix _ Z hZfix

/-- C6 (counterexample): a hosts file whose contents already hold two
identical `127.0.0.1 localhost` lines keeps both verbatim, so the
produced file contains two such lines, not exactly one. -/
theorem c6_counterexample :
    ((rustLinesL (configure_hosts
        (("127.0.0.1 localhost\n127.0.0.1 localhost\n").data)
        (("newhost").data))).count (("127.0.0.1 localhost").data)) = 2 := by
  decide

/-- C6 (amended): provided the hostname carries no newline or carriage
return and no original line retains a trailing carriage return after
splitting, the rewritten hosts line list preserves, in order and
verbatim, exactly the original lines that are not `127.0.1.1` entries,
appending a single `127.0.0.1<TAB>localhost` line only when no line
starting with `127.0.0.1` was present; it contains exactly one
`127.0.1.1` entry, the line naming the new hostname; the lines of the
produced file are exactly this list, except that a trailing blank line is
dropped by the newline join and the three IPv6 default lines are appended
when the rendered text lacks the `::1` marker; and the file always keeps
at least one `127.0.0.1` entry.  (The original claim's "exactly one
`127.0.0.1 localhost` line" fails when the input already holds such
lines, per the counterexample.) -/
theorem c6_amended (x h : Str) (h1 : '\n' ∉ h) (hcr : '\r' ∉ h)
    (h2 : ∀ l ∈ rustLinesL x, stripCrL l = l) :
    (hostsOut h (rustLinesL x)).filter (fun e => ! is127011 e)
        = (rustLinesL x).filter (fun e => ! is127011 e)
          ++ (if (rustLinesL x).any (fun e => is127001 e) then []
              else [localhostLine])
      ∧ (hostsOut h (rustLinesL x)).filter (fun e => is127011 e) = [hostLine h]
      ∧ rustLinesL (configure_hosts x h)
          = chompBlank (hostsOut h (rustLinesL x))
            ++ (if ip6Marker <:+: ensureNlL (joinNlL (hostsOut h (rustLinesL x)))
                then [] else [ip6Line1, ip6Line2, ip6Line3])
      ∧ (rustLinesL (configure_hosts x h)).any (fun e => is127001 e) = true := by
  refine ⟨?_, ?_, configure_hosts_file_lines x h h1 hcr h2, ?_⟩
  · have hk := procLines_filter_keep h (rustLinesL x) false false
    rw [Bool.false_or] at hk
    exact hk
  · have hh := procLines_filter_host h (rustLinesL x) false false
    simpa using hh
  · rw [configure_hosts_file_lines x h h1 hcr h2]
    obtain ⟨w, hwO, hw1⟩ := procLines_localhost h (rustLinesL x) false
    have hwO' : w ∈ hostsOut h (rustLinesL x) := hwO
    have hwne : w ≠ [] := by
      intro hc
      rw [hc] at hw1
      exact absurd hw1 (by decide)
    have hwD : w ∈ chompBlank (hostsOut h (rustLinesL x)) := by
      rcases mem_chompBlank_of_mem _ w hwO' with hm | hm
      · exact hm
      · exact absurd hm hwne
    exact List.any_eq_true.mpr ⟨w, List.mem_append_left _ hwD, hw1⟩

/-- Concrete hosts contents for the amended-C6 witness. -/
def c6X : Str := ("127.0.0.1 localhost\n127.0.1.1 old\n").data

/-- Concrete hostname for the amended-C6 witness. -/
def c6H : Str := ("newhost").data

theorem c6_amended_witness :
    (hostsOut c6H (rustLinesL c6X)).filter (fun e => ! is127011 e)
        = (rustLinesL c6X).filter (fun e => ! is127011 e)
          ++ (if (rustLinesL c6X).any (fun e => is127001 e) then []
              else [localhostLine])
      ∧ (hostsOut c6H (rustLinesL c6X)).filter (fun e => is127011 e) = [hostLine c6H]
      ∧ rustLinesL (configure_hosts c6X c6H)
          = chompBlank (hostsOut c6H (rustLinesL c6X))
            ++ (if ip6Marker <:+: ensureNlL (joinNlL (hostsOut c6H (rustLinesL c6X)))
                then [] else [ip6Line1, ip6Line2, ip6Line3])
      ∧ (rustLinesL (configure_hosts c6X c6H)).any (fun e => is127001 e) = true :=
  c6_amended c6X c6H (by decide) (by decide) (by decide)

/-- C1: for every scan result, `choose_single_target_disk` fails with
`NoEligibleDisk` on zero eligible disks, returns exactly the single
eligible disk on one, and on two or more fails with an `AmbiguousTarget`
whose message lists the device path of every eligible disk. -/
theorem c1_choose_single_target_disk (env : ScanEnv) (ds : List Disk)
    (hok : eligible_disks env = .ok ds) :
    (ds = [] → choose_single_target_disk env = .error .noEligibleDisk)
    ∧ (∀ d, ds = [d] → choose_single_target_disk env = .ok d)
    ∧ (2 ≤ ds.length →
        ∃ names, choose_single_target_disk env = .error (.ambiguousTarget names)
          ∧ ∀ d ∈ ds, d.devPath <:+: names) := by
  refine ⟨?_, ?_, ?_⟩
  · intro hds
    subst hds
    simp [choose_single_target_disk, hok]
  · intro d hds
    subst hds
    simp [choose_single_target_disk, hok]
  · intro hlen
    cases ds with
    | nil => simp at hlen
    | cons a tail =>
      cases tail with
      | nil => simp at hlen
      | cons b rest =>
        refine ⟨joinCommaSp ((a :: b :: rest).map Disk.devPath), ?_, ?_⟩
        · simp [choose_single_target_disk, hok]
        · intro d hd
          exact mem_infix_joinSep (", ").data (List.mem_map_of_mem Disk.devPath hd)

/-- Entry used by the C1 witness: a plain eligible virtio disk. -/
def c1Entry (nm : String) : DevEntry :=
  { name := nm.data, hasDevice := true, removable := some ("0\n").data,
    ro := some ("0\n").data, size := some ("4096\n").data, model := none }

/-- Two-disk environment used by the C1 witness. -/
def c1Env : ScanEnv :=
  { block := some [c1Entry ("vda"), c1Entry ("vdb")], mountinfo := some [],
    minSizeBytes := 1024 }

/-- Disk `vda` as the scanner reports it from `c1Env`. -/
def c1DiskA : Disk :=
  { name := ("vda").data, devPath := ("/dev/vda").data, sizeBytes := 2097152,
    model := none }

/-- Disk `vdb` as the scanner reports it from `c1Env`. -/
def c1DiskB : Disk :=
  { name := ("vdb").data, devPath := ("/dev/vdb").data, sizeBytes := 2097152,
    model := none }

theorem c1_choose_single_target_disk_witness :
    ∃ names, choose_single_target_disk c1Env = .error (.ambiguousTarget names)
      ∧ ∀ d ∈ [c1DiskA, c1DiskB], d.devPath <:+: names := by
  have hok : eligible_disks c1Env = .ok [c1DiskA, c1DiskB] := by decide
  exact (c1_choose_single_target_disk c1Env [c1DiskA, c1DiskB] hok).2.2 (by simp)

theorem processEntry_skip_unreadable (minSize : Nat) (mi : Option Str)
    (e : DevEntry) (h : e.removable = none ∨ e.ro = none) :
    processEntry minSize mi e = .ok none := by
  rcases h with h | h <;> simp [processEntry, h]

theorem scanEntries_skip (minSize : Nat) (mi : Option Str) (e : DevEntry)
    (h : processEntry minSize mi e = .ok none) :
    ∀ a b : List DevEntry,
      scanEntries minSize mi (a ++ e :: b) = scanEntries minSize mi (a ++ b) := by
  intro a
  induction a with
  | nil =>
    intro b
    simp [scanEntries, h]
  | cons x xs ih =>
    intro b
    simp only [List.cons_append, scanEntries]
    cases hx : processEntry minSize mi x <;> simp [ih b]

theorem scanEntries_size_fatal (minSize : Nat) (mi : Option Str) (e : DevEntry)
    (hc : is_candidate_name e.name = true) (hd : e.hasDevice = true)
    (hr : e.removable.bind parseU64? = some 0) (hro : e.ro.bind parseU64? = some 0)
    (hs : e.size.bind parseU64? = none) :
    ∀ a b : List DevEntry, ∃ er,
      scanEntries minSize mi (a ++ e :: b) = .error er := by
  have hpe : processEntry minSize mi e
      = .error (.ioError (("Failed to read size for ").data ++ e.name)) := by
    simp [processEntry, hc, hd, hr, hro, hs]
  intro a
  induction a with
  | nil =>
    intro b
    refine ⟨.ioError (("Failed to read size for ").data ++ e.name), ?_⟩
    rw [List.nil_append]
    simp only [scanEntries, hpe]
  | cons x xs ih =>
    intro b
    obtain ⟨er, her⟩ := ih b
    simp only [List.cons_append, scanEntries]
    cases hx : processEntry minSize mi x with
    | error er2 => exact ⟨er2, rfl⟩
    | ok od =>
      cases od with
      | none => exact ⟨er, her⟩
      | some d =>
        refine ⟨er, ?_⟩
        have hd2 : scanEntries minSize mi (xs.append (e :: b)) = Except.error er := her
        rw [hd2]
        rfl

theorem scanEntries_entry_error (minSize : Nat) (mi : Option Str) (e : DevEntry)
    (er0 : ScanError) (hpe : processEntry minSize mi e = .error er0) :
    ∀ a b : List DevEntry, ∃ er,
      scanEntries minSize mi (a ++ e :: b) = .error er := by
  intro a
  induction a with
  | nil =>
    intro b
    refine ⟨er0, ?_⟩
    rw [List.nil_append]
    simp only [scanEntries, hpe]
  | cons x xs ih =>
    intro b
    obtain ⟨er, her⟩ := ih b
    simp only [List.cons_append, scanEntries]
    cases hx : processEntry minSize mi x with
    | error er2 => exact ⟨er2, rfl⟩
    | ok od =>
      cases od with
      | none => exact ⟨er, her⟩
      | some d =>
        refine ⟨er, ?_⟩
        have hd2 : scanEntries minSize mi (xs.append (e :: b)) = Except.error er := her
        rw [hd2]
        rfl

/-- C4 (amended): an unreadable `removable` or `ro` attribute file makes
only that device ineligible — removing such an entry leaves the scan
result unchanged; but an unreadable (or unparsable) `size` attribute of
a device that passes the earlier checks aborts the whole scan, as does
an unreadable mount table once some device reaches the mount check, and
an unreadable top-level block directory.  (The original claim, that a
`size` read failure also affects only that device, fails per the
counterexample.) -/
theorem c4_amended :
    (∀ (minSize : Nat) (mi : Option Str) (a b : List DevEntry) (e : DevEntry),
        e.removable = none ∨ e.ro = none →
        scanEntries minSize mi (a ++ e :: b) = scanEntries minSize mi (a ++ b))
    ∧ (∀ (minSize : Nat) (mi : Option Str) (a b : List DevEntry) (e : DevEntry),
        is_candidate_name e.name = true → e.hasDevice = true →
        e.removable.bind parseU64? = some 0 → e.ro.bind parseU64? = some 0 →
        e.size.bind parseU64? = none →
        ∃ er, scanEntries minSize mi (a ++ e :: b) = .error er)
    ∧ (∀ (minSize : Nat) (a b : List DevEntry) (e : DevEntry) (sectors : Nat),
        is_candidate_name e.name = true → e.hasDevice = true →
        e.removable.bind parseU64? = some 0 → e.ro.bind parseU64? = some 0 →
        e.size.bind parseU64? = some sectors →
        ¬ min (sectors * 512) (2 ^ 64 - 1) < minSize →
        ∃ er, scanEntries minSize none (a ++ e :: b) = .error er)
    ∧ (∀ env : ScanEnv, env.block = none →
        eligible_disks env = .error (.ioError (("Failed to read block dir").data))) := by
  refine ⟨?_, ?_, ?_, ?_⟩
  · intro minSize mi a b e h
    exact scanEntries_skip minSize mi e (processEntry_skip_unreadable minSize mi e h) a b
  · intro minSize mi a b e hc hd hr hro hs
    exact scanEntries_size_fatal minSize mi e hc hd hr hro hs a b
  · intro minSize a b e sectors hc hd hr hro hsec hsz
    refine scanEntries_entry_error minSize none e
      (.ioError ("Failed to read mountinfo").data) ?_ a b
    simp only [processEntry, hc, hd, hr, hro, hsec]
    simp [hsz]
    omega
  · intro env h
    simp [eligible_disks, h]

/-- Whether the scan as a whole succeeded. -/
def scanSucceeds (env : ScanEnv) : Bool :=
  match eligible_disks env with
  | .ok _ => true
  | .error _ => false

/-- Entry whose `size` attribute file is unreadable but which passes the
earlier eligibility checks. -/
def c4EntryBadSize : DevEntry :=
  { name := ("sda").data, hasDevice := true, removable := some ("0").data,
    ro := some ("0").data, size := none, model := none }

/-- Entry whose `removable` attribute file is unreadable. -/
def c4EntryNoRem : DevEntry :=
  { name := ("sdb").data, hasDevice := true, removable := none,
    ro := some ("0").data, size := some ("4096").data, model := none }

/-- Entry passing every eligibility check up to the mount check. -/
def c4EntryMount : DevEntry :=
  { name := ("sdc").data, hasDevice := true, removable := some ("0").data,
    ro := some ("0").data, size := some ("4096").data, model := none }

/-- Scanner environment holding only the unreadable-size entry. -/
def c4EnvBadSize : ScanEnv :=
  { block := some [c4EntryBadSize], mountinfo := some [], minSizeBytes := 0 }

/-- C4 (counterexample): a single device whose `size` attribute file is
unreadable makes the whole scan fail with an `IoError` instead of merely
skipping that device, falsifying the claim that an unreadable per-device
attribute file never fails the whole scan. -/
theorem c4_counterexample :
    eligible_disks c4EnvBadSize
        = .error (.ioError (("Failed to read size for sda").data))
      ∧ scanSucceeds c4EnvBadSize = false := by
  decide

theorem c4_amended_witness :
    scanEntries 0 (some []) ([] ++ c4EntryNoRem :: []) = scanEntries 0 (some []) ([] ++ [])
    ∧ (∃ er, scanEntries 0 (some []) ([] ++ c4EntryBadSize :: []) = .error er)
    ∧ (∃ er, scanEntries 0 none ([] ++ c4EntryMount :: []) = .error er)
    ∧ eligible_disks { block := none, mountinfo := some [], minSizeBytes := 0 }
        = .error (.ioError (("Failed to read block dir").data)) := by
  refine ⟨c4_amended.1 0 (some []) [] [] c4EntryNoRem (Or.inl rfl),
    c4_amended.2.1 0 (some []) [] [] c4EntryBadSize (by decide) (by decide)
      (by decide) (by decide) (by decide),
    c4_amended.2.2.1 0 [] [] c4EntryMount 4096 (by decide) (by decide)
      (by decide) (by decide) (by decide) (by decide),
    c4_amended.2.2.2 _ rfl⟩

theorem ensureFresh_valid (env : MachineIdEnv) (st : MachineIdState)
    (hok : ensureFreshMachineId env = .ok st) :
    valid32Hex st.machineId = true ∧ st.dbusMirrored = true := by
  cases hu : env.kernelUuid with
  | none =>
    have hf : ensureFreshMachineId env
        = .error (("Failed to read kernel random uuid").data) := by
      simp [ensureFreshMachineId, hu]
    rw [hf] at hok
    cases hok
  | some uuid =>
    by_cases hlen : ((uuid.filter isHexC).take 32).length = 32
    · have hf : ensureFreshMachineId env
          = .ok { machineId := (uuid.filter isHexC).take 32 ++ ['\n'],
                  dbusMirrored := true } := by
        simp [ensureFreshMachineId, hu, hlen]
      rw [hf] at hok
      injection hok with hst
      rw [← hst]
      constructor
      · simp only [valid32Hex, List.getLast?_concat, List.dropLast_concat, hlen]
        have hall : ((uuid.filter isHexC).take 32).all isHexC = true := by
          rw [List.all_eq_true]
          intro c hc
          exact (List.mem_filter.mp (List.mem_of_mem_take hc)).2
        rw [hall]
        simp
      · rfl
    · have hf : ensureFreshMachineId env
          = .error (("Failed to derive a 32-hex machine-id from kernel uuid").data) := by
        simp [ensureFreshMachineId, hu, hlen]
        rw [List.length_take] at hlen
        omega
      rw [hf] at hok
      cases hok

/-- Contents of an `etc/machine-id` made of 32 non-hex characters, long
enough for the early-return check. -/
def c7Zs : Str := List.replicate 32 'z'

/-- C7 (counterexample): an existing `etc/machine-id` holding 32 `z`
characters is accepted unchanged — the networking step's machine-id
phase succeeds — yet the file is not a valid 32-hex identifier and the
D-Bus location is not mirrored, falsifying the claim. -/
theorem c7_counterexample :
    ensure_machine_id { existing := some c7Zs, kernelUuid := none }
        = .ok { machineId := c7Zs, dbusMirrored := false }
      ∧ valid32Hex c7Zs = false := by
  decide

/-- C7 (amended): when the machine-id phase of the networking step
succeeds, either the pre-existing `etc/machine-id` had at least 32
non-whitespace characters and is kept as-is with no validation and no
D-Bus mirroring, or a fresh identifier of exactly 32 hex characters
derived from the kernel random UUID is written and the D-Bus location is
symlinked to it. -/
theorem c7_amended (env : MachineIdEnv) (st : MachineIdState)
    (hok : ensure_machine_id env = .ok st) :
    (∃ c, env.existing = some c ∧ 32 ≤ (trimL c).length ∧ st.machineId = c
        ∧ st.dbusMirrored = false)
    ∨ (valid32Hex st.machineId = true ∧ st.dbusMirrored = true) := by
  cases he : env.existing with
  | none =>
    have hf : ensure_machine_id env = ensureFreshMachineId env := by
      simp [ensure_machine_id, he]
    rw [hf] at hok
    exact Or.inr (ensureFresh_valid env st hok)
  | some c =>
    by_cases hl : 32 ≤ (trimL c).length
    · have hf : ensure_machine_id env
          = .ok { machineId := c, dbusMirrored := false } := by
        simp [ensure_machine_id, he, hl]
      rw [hf] at hok
      injection hok with hst
      rw [← hst]
      exact Or.inl ⟨c, rfl, hl, rfl, rfl⟩
    · have hf : ensure_machine_id env = ensureFreshMachineId env := by
        simp [ensure_machine_id, he, hl]
      rw [hf] at hok
      exact Or.inr (ensureFresh_valid env st hok)

/-- Kernel random UUID used by the C7 witness. -/
def c7Uuid : Str := ("2f904e0a-df71-4b5a-8d5c-1a2b3c4d5e6f").data

/-- Environment of the C7 witness: no existing machine-id file. -/
def c7EnvFresh : MachineIdEnv := { existing := none, kernelUuid := some c7Uuid }

/-- State the C7 witness environment produces. -/
def c7StFresh : MachineIdState :=
  { machineId := ("2f904e0adf714b5a8d5c1a2b3c4d5e6f\n").data, dbusMirrored := true }

theorem c7_amended_witness :
    (∃ c, c7EnvFresh.existing = some c ∧ 32 ≤ (trimL c).length
        ∧ c7StFresh.machineId = c ∧ c7StFresh.dbusMirrored = false)
    ∨ (valid32Hex c7StFresh.machineId = true ∧ c7StFresh.dbusMirrored = true) :=
  c7_amended c7EnvFresh c7StFresh (by decide)

/-- Registration environment of the C2 counterexample: `efibootmgr`
spawns, exits unsuccessfully, and reports an unrecognized stderr. -/
def c2RegFail : RegEnv :=
  { efiPresent := true, spawnOk := true, exitSuccess := false,
    stderr := ("boom").data }

/-- Boot environment of the C2 counterexample: every step before the
firmware registration succeeds. -/
def c2BootEnv : BootEnv :=
  { blkidRoot := some ("aaaa-bbbb").data, blkidEsp := some ("cccc-dddd").data,
    sdBootPresent := true, kernelInitrdFound := true, verifyOk := true,
    reg := c2RegFail }

/-- C2 (counterexample): a firmware registration failure whose stderr is
not one of the recognized fragments surfaces as an error from
`register_uefi_boot_entry`, yet `configure_boot_systemd_boot` still
succeeds — the failure is not fatal to the boot-configuration step,
falsifying the claim as stated. -/
theorem c2_counterexample :
    (configure_boot_systemd_boot c2BootEnv).1 = .ok ()
    ∧ register_uefi_boot_entry c2BootEnv.reg
        = .error (("efibootmgr failed: stderr=").data ++ ("boom").data)
    ∧ recognizedStderr (("boom").data) = false := by
  decide

/-- C2 (amended): a registration failure whose stderr indicates a
recognized unsupported/read-only/permission condition is swallowed inside
`register_uefi_boot_entry`; any other registration failure is returned as
an error by `register_uefi_boot_entry`, but `configure_boot_systemd_boot`
downgrades it to a warning, so the boot-configuration step succeeds in
either case. -/
theorem c2_amended (benv : BootEnv)
    (hr : ∃ s, benv.blkidRoot = some s ∧ trimL s ≠ [])
    (he : ∃ s, benv.blkidEsp = some s ∧ trimL s ≠ [])
    (hsb : benv.sdBootPresent = true) (hki : benv.kernelInitrdFound = true)
    (hv : benv.verifyOk = true) :
    (configure_boot_systemd_boot benv).1 = .ok ()
    ∧ (benv.reg.efiPresent = true → benv.reg.spawnOk = true →
        benv.reg.exitSuccess = false →
        (recognizedStderr benv.reg.stderr = true →
          register_uefi_boot_entry benv.reg = .ok ())
        ∧ (recognizedStderr benv.reg.stderr = false →
          register_uefi_boot_entry benv.reg
            = .error (("efibootmgr failed: stderr=").data ++ benv.reg.stderr))) := by
  constructor
  · obtain ⟨s1, hs1, ht1⟩ := hr
    obtain ⟨s2, hs2, ht2⟩ := he
    simp [configure_boot_systemd_boot, blkid_uuid, hs1, hs2, ht1, ht2, hsb, hki, hv]
  · intro hefi hspawn hexit
    constructor
    · intro hrec
      simp [register_uefi_boot_entry, hefi, hspawn, hexit, hrec]
    · intro hrec
      simp [register_uefi_boot_entry, hefi, hspawn, hexit, hrec]

theorem c2_amended_witness :
    (configure_boot_systemd_boot c2BootEnv).1 = .ok ()
    ∧ register_uefi_boot_entry c2BootEnv.reg
        = .error (("efibootmgr failed: stderr=").data ++ c2BootEnv.reg.stderr) := by
  have h := c2_amended c2BootEnv ⟨("aaaa-bbbb").data, rfl, by decide⟩
    ⟨("cccc-dddd").data, rfl, by decide⟩ rfl rfl rfl
  exact ⟨h.1, (h.2 rfl rfl rfl).2 (by decide)⟩

/-- C8: when the UUID lookup for the root or the ESP partition fails or
returns an empty string, `configure_boot_systemd_boot` returns an error
and performs no write on the mounted ESP (in fact no write at all). -/
theorem c8_uuid_failure_aborts (env : BootEnv)
    (h : env.blkidRoot = none ∨ (∃ s, env.blkidRoot = some s ∧ trimL s = [])
       ∨ env.blkidEsp = none ∨ (∃ s, env.blkidEsp = some s ∧ trimL s = [])) :
    (∃ emsg, (configure_boot_systemd_boot env).1 = .error emsg)
    ∧ ∀ ev ∈ (configure_boot_systemd_boot env).2, isEspWrite ev = false := by
  have hb : ∀ o : Option Str, (o = none ∨ ∃ s, o = some s ∧ trimL s = []) →
      ∃ e2, blkid_uuid o = .error e2 := by
    intro o ho
    rcases ho with ho | ⟨s, hs, ht⟩
    · exact ⟨("blkid failed").data, by simp [blkid_uuid, ho]⟩
    · exact ⟨("blkid returned empty UUID").data, by simp [blkid_uuid, hs, ht]⟩
  have hroot_fail : (env.blkidRoot = none ∨ (∃ s, env.blkidRoot = some s ∧ trimL s = []))
      ∨ (env.blkidEsp = none ∨ (∃ s, env.blkidEsp = some s ∧ trimL s = [])) := by
    rcases h with h | h | h | h
    · exact Or.inl (Or.inl h)
    · exact Or.inl (Or.inr h)
    · exact Or.inr (Or.inl h)
    · exact Or.inr (Or.inr h)
  rcases hroot_fail with hf | hf
  · obtain ⟨e2, he2⟩ := hb env.blkidRoot hf
    refine ⟨⟨e2, ?_⟩, ?_⟩
    · simp [configure_boot_systemd_boot, he2]
    · intro ev hev
      simp [configure_boot_systemd_boot, he2] at hev
  · obtain ⟨e2, he2⟩ := hb env.blkidEsp hf
    cases hroot : blkid_uuid env.blkidRoot with
    | error e3 =>
      refine ⟨⟨e3, ?_⟩, ?_⟩
      · simp [configure_boot_systemd_boot, hroot]
      · intro ev hev
        simp [configure_boot_systemd_boot, hroot] at hev
    | ok u =>
      refine ⟨⟨e2, ?_⟩, ?_⟩
      · simp [configure_boot_systemd_boot, hroot, he2]
      · intro ev hev
        simp [configure_boot_systemd_boot, hroot, he2] at hev

/-- Boot environment of the C8 witness: the root UUID lookup fails. -/
def c8Env : BootEnv :=
  { blkidRoot := none, blkidEsp := some ("cccc").data, sdBootPresent := true,
    kernelInitrdFound := true, verifyOk := true,
    reg := { efiPresent := false, spawnOk := true, exitSuccess := true,
             stderr := [] } }

theorem c8_uuid_failure_aborts_witness :
    (∃ emsg, (configure_boot_systemd_boot c8Env).1 = .error emsg)
    ∧ ∀ ev ∈ (configure_boot_systemd_boot c8Env).2, isEspWrite ev = false :=
  c8_uuid_failure_aborts c8Env (Or.inl rfl)

/-- Driver environment of the C3 theorem: disk selection and payload
check pass, the signature wipe fails, everything afterwards succeeds. -/
def c3Env : RunEnv :=
  { chooseOk := true, payloadExists := true, wipefsOk := false,
    partitionOk := true, partitionsDerivable := true, formatOk := true,
    mountOk := true, extractOk := true, hostnameOk := true, usersOk := true,
    dhcpOk := true, bootOk := true, syncOk := true }

/-- C3: the claim is right and the code is wrong — in `run`, a `wipefs`
failure is reported through `handle_error` but, unlike every other step
failure, does not return, so the driver goes on to partition and format
the very disk whose signature wipe just failed.  Evaluated on an
environment where only `wipefs` fails, the trace still contains the
subsequent destructive steps. -/
theorem c3_wipefs_failure_continues :
    c3Env.wipefsOk = false
    ∧ runPipeline c3Env
        = [.wipefs, .partition, .format, .mount, .extract, .hostname, .users,
           .dhcp, .boot, .sync, .unmountFinal]
    ∧ StepAct.partition ∈ runPipeline c3Env
    ∧ isDestructive .partition = true ∧ isDestructive .format = true := by
  decide

/-- C10: when the rootfs payload archive is absent, the driver performs
no step at all — in particular no destructive disk operation — and the
install phase ends with only the error report. -/
theorem c10_no_destructive_without_payload (env : RunEnv)
    (h : env.payloadExists = false) :
    runPipeline env = []
    ∧ ∀ a ∈ runPipeline env, isDestructive a = false := by
  have h1 : runPipeline env = [] := by
    simp [runPipeline, h]
  refine ⟨h1, ?_⟩
  rw [h1]
  simp

/-- Driver environment of the C10 witness: payload absent, everything
else would succeed. -/
def c10Env : RunEnv :=
  { chooseOk := true, payloadExists := false, wipefsOk := true,
    partitionOk := true, partitionsDerivable := true, formatOk := true,
    mountOk := true, extractOk := true, hostnameOk := true, usersOk := true,
    dhcpOk := true, bootOk := true, syncOk := true }

theorem c10_no_destructive_without_payload_witness :
    runPipeline c10Env = []
    ∧ ∀ a ∈ runPipeline c10Env, isDestructive a = false :=
  c10_no_destructive_without_payload c10Env rfl

end Installer
